/-
Verification development for the experiment-tracker utilities
(src/hydra-proj/src/experiment_tracker.py).

The Python module is shallowly embedded: JSON documents and pandas rows
become association lists of string keys and scalar values, directories
become explicit structures, and each Python function becomes a Lean
function over those structures.  Python floats appearing in the source
(accuracy values, the 0.9 retention threshold) are modelled as rationals;
every comparison performed by the source on such values is exact, so the
rational model is faithful.  Rationals are written as explicit
numerator/denominator structure literals in lowest terms so that the
kernel can evaluate comparisons.
-/
import Mathlib

namespace ExperimentTracker

/-- A JSON / pandas scalar value: a string or a number. -/
inductive Value where
  | str (s : String)
  | num (q : ℚ)
  deriving DecidableEq, Repr

/-- A flat record (Python dict with string keys, in insertion order), as
assembled by the tracker from experiment_info.json and results.json. -/
abbrev Record := List (String × Value)

/-- Dict lookup: first entry with the given key (dicts produced by the
source have unique keys, so first = only). Missing key models both the
absent dict key and the NaN cell pandas puts in a missing column. -/
def getField (r : Record) (k : String) : Option Value :=
  (r.find? (fun p => p.1 == k)).map (fun p => p.2)

/-- Dict assignment d[k] = v: replaces the value at an existing key in
place, otherwise appends the new pair (Python dict insertion order). -/
def setField (r : Record) (k : String) (v : Value) : Record :=
  if r.any (fun p => p.1 == k) then
    r.map (fun p => if p.1 == k then (k, v) else p)
  else
    r ++ [(k, v)]

/-- Python dict.update: assign every pair of the second dict into the
first, so values of the second override on key collision. -/
def dictUpdate (info results : Record) : Record :=
  results.foldl (fun acc p => setField acc p.1 p.2) info

theorem getField_nil (k : String) : getField [] k = none := rfl

theorem getField_cons (a : String) (v : Value) (t : Record) (k : String) :
    getField ((a, v) :: t) k = if a = k then some v else getField t k := by
  by_cases h : a = k
  · simp [getField, List.find?, h]
  · have hb : (a == k) = false := by simpa using h
    simp [getField, List.find?, hb, h]

theorem getField_append_right (r : Record) (s : Record) (k : String)
    (h : getField r k = none) : getField (r ++ s) k = getField s k := by
  induction r with
  | nil => simp
  | cons p t ih =>
    obtain ⟨a, v⟩ := p
    rw [getField_cons] at h
    by_cases hak : a = k
    · simp [hak] at h
    · rw [List.cons_append, getField_cons, if_neg hak]
      exact ih (by simpa [hak] using h)

theorem getField_map_set (t : Record) (k : String) (v : Value)
    (h : t.any (fun p => p.1 == k) = true) :
    getField (t.map (fun p => if p.1 == k then (k, v) else p)) k = some v := by
  induction t with
  | nil => simp at h
  | cons p t ih =>
    obtain ⟨a, w⟩ := p
    by_cases hak : a = k
    · simp only [List.map_cons]
      rw [if_pos (by simpa using hak)]
      rw [getField_cons, if_pos rfl]
    · simp only [List.any_cons, Bool.or_eq_true, beq_iff_eq] at h
      rcases h with h | h
      · exact absurd h hak
      · simp only [List.map_cons]
        rw [if_neg (by simpa using hak), getField_cons, if_neg hak]
        exact ih h

theorem getField_any_none (t : Record) (k : String)
    (h : t.any (fun p => p.1 == k) = false) : getField t k = none := by
  induction t with
  | nil => rfl
  | cons p t ih =>
    obtain ⟨a, w⟩ := p
    simp only [List.any_cons, Bool.or_eq_false_iff, beq_eq_false_iff_ne, ne_eq] at h
    rw [getField_cons, if_neg h.1]
    exact ih h.2

/-- Assigning a key makes lookup of that key return the assigned value. -/
theorem getField_setField_same (r : Record) (k : String) (v : Value) :
    getField (setField r k v) k = some v := by
  unfold setField
  by_cases h : r.any (fun p => p.1 == k) = true
  · rw [if_pos h]
    exact getField_map_set r k v h
  · rw [if_neg h]
    rw [getField_append_right r _ k (getField_any_none r k (Bool.eq_false_iff.mpr h))]
    rw [getField_cons, if_pos rfl]

theorem getField_map_set_other (t : Record) (k k' : String) (v : Value)
    (hne : k' ≠ k) :
    getField (t.map (fun p => if p.1 == k then (k, v) else p)) k' = getField t k' := by
  induction t with
  | nil => rfl
  | cons p t ih =>
    obtain ⟨a, w⟩ := p
    by_cases hak : a = k
    · simp only [List.map_cons]
      rw [if_pos (by simpa using hak), getField_cons, getField_cons,
        if_neg (fun e => hne e.symm), if_neg (fun e => hne (hak ▸ e).symm)]
      exact ih
    · simp only [List.map_cons]
      rw [if_neg (by simpa using hak), getField_cons, getField_cons]
      by_cases hak' : a = k'
      · rw [if_pos hak', if_pos hak']
      · rw [if_neg hak', if_neg hak']
        exact ih

theorem getField_append_single_other (r : Record) (k k' : String) (v : Value)
    (hne : k' ≠ k) : getField (r ++ [(k, v)]) k' = getField r k' := by
  unfold getField
  rw [List.find?_append]
  have hnone : List.find? (fun p => p.1 == k') [(k, v)] = none := by
    have : ((k, v).1 == k') = false := by
      simp only [beq_eq_false_iff_ne, ne_eq]
      exact fun e => hne e.symm
    simp [List.find?, this]
  rw [hnone, Option.or_none]

/-- Assigning a key leaves lookup of every other key unchanged. -/
theorem getField_setField_other (r : Record) (k k' : String) (v : Value)
    (hne : k' ≠ k) : getField (setField r k v) k' = getField r k' := by
  unfold setField
  by_cases h : r.any (fun p => p.1 == k) = true
  · rw [if_pos h]
    exact getField_map_set_other r k k' v hne
  · rw [if_neg h]
    exact getField_append_single_other r k k' v hne

/-- A key present after an assignment was the assigned key or was already
present. -/
theorem getField_setField_ne_none (r : Record) (k k' : String) (v : Value)
    (h : getField (setField r k v) k' ≠ none) :
    k' = k ∨ getField r k' ≠ none := by
  by_cases hk : k' = k
  · exact Or.inl hk
  · rw [getField_setField_other r k k' v hk] at h
    exact Or.inr h

/-- Keys of a dict update come from one of the two dicts. -/
theorem getField_dictUpdate_ne_none (rs : Record) :
    ∀ (i : Record) (k : String), getField (dictUpdate i rs) k ≠ none →
      getField i k ≠ none ∨ getField rs k ≠ none := by
  induction rs with
  | nil => intro i k h; exact Or.inl h
  | cons q t ih =>
    intro i k h
    obtain ⟨a, w⟩ := q
    have step : dictUpdate i ((a, w) :: t) = dictUpdate (setField i a w) t := rfl
    rw [step] at h
    rcases ih (setField i a w) k h with h' | h'
    · rcases getField_setField_ne_none i a k w h' with hk | hk
      · refine Or.inr ?_
        rw [getField_cons, if_pos hk.symm]
        exact fun e => Option.noConfusion e
      · exact Or.inl hk
    · refine Or.inr ?_
      rw [getField_cons]
      by_cases hak : a = k
      · rw [if_pos hak]; exact fun e => Option.noConfusion e
      · rw [if_neg hak]; exact h'

/-- Values surviving a dict update: the update's value wins on collision,
otherwise the original value is kept. -/
theorem getField_dictUpdate_of_not_mem (rs : Record) :
    ∀ (i : Record) (k : String), getField rs k = none →
      getField (dictUpdate i rs) k = getField i k := by
  induction rs with
  | nil => intro i k _; rfl
  | cons q t ih =>
    intro i k h
    obtain ⟨a, w⟩ := q
    rw [getField_cons] at h
    by_cases hak : a = k
    · rw [if_pos hak] at h; exact absurd h (by simp)
    · rw [if_neg hak] at h
      have step : dictUpdate i ((a, w) :: t) = dictUpdate (setField i a w) t := rfl
      rw [step, ih (setField i a w) k h]
      exact getField_setField_other i a k w (fun e => hak e.symm)

/-! String helpers.  Python compares strings lexicographically by code
point; Lean's built-in String order is iterator-based and does not
evaluate in the kernel, so the same order is defined here over the
character list of a string. -/

/-- Character-list equality of a candidate initial segment: models
Python str.startswith restricted to what the tracker needs. -/
def leadsWith : List Char → List Char → Bool
  | [], _ => true
  | _ :: _, [] => false
  | a :: as, b :: bs => a = b && leadsWith as bs

/-- Python str.startswith. -/
def strStarts (p s : String) : Bool := leadsWith p.data s.data

/-- Lexicographic code-point order on character lists: the order Python
sorted() uses on directory-name strings. -/
def lexLe : List Char → List Char → Bool
  | [], _ => true
  | _ :: _, [] => false
  | a :: as, b :: bs => if a = b then lexLe as bs else decide (a < b)

/-- Python string order (lexicographic by code point). -/
def pyLe (a b : String) : Prop := lexLe a.data b.data = true

instance : DecidableRel pyLe := fun a b => by
  unfold pyLe; infer_instance

theorem lexLe_total : ∀ as bs : List Char, lexLe as bs = true ∨ lexLe bs as = true := by
  intro as
  induction as with
  | nil => intro bs; exact Or.inl rfl
  | cons a as ih =>
    intro bs
    cases bs with
    | nil => exact Or.inr rfl
    | cons b bs =>
      by_cases hab : a = b
      · rcases ih bs with h | h
        · exact Or.inl (by simp [lexLe, hab, h])
        · exact Or.inr (by simp [lexLe, hab.symm, h])
      · have hba : ¬ b = a := fun e => hab e.symm
        rcases lt_or_gt_of_ne hab with h | h
        · exact Or.inl (by simp [lexLe, hab, h])
        · exact Or.inr (by simp [lexLe, hba, h])

theorem lexLe_trans : ∀ as bs cs : List Char,
    lexLe as bs = true → lexLe bs cs = true → lexLe as cs = true := by
  intro as
  induction as with
  | nil => intro bs cs _ _; rfl
  | cons a as ih =>
    intro bs cs h1 h2
    cases bs with
    | nil => exact absurd h1 (by simp [lexLe])
    | cons b bs =>
      cases cs with
      | nil => exact absurd h2 (by simp [lexLe])
      | cons c cs =>
        by_cases hab : a = b <;> by_cases hbc : b = c
        · subst hab; subst hbc
          simp only [lexLe, if_pos rfl] at h1 h2 ⊢
          exact ih bs cs h1 h2
        · subst hab
          simp only [lexLe, if_pos rfl, if_neg hbc] at h2 ⊢
          exact h2
        · subst hbc
          simp only [lexLe, if_neg hab] at h1 ⊢
          exact h1
        · simp only [lexLe, if_neg hab] at h1
          simp only [lexLe, if_neg hbc] at h2
          have hac : a < c := lt_trans (of_decide_eq_true h1) (of_decide_eq_true h2)
          have hne : a ≠ c := ne_of_lt hac
          simp [lexLe, hne, hac]

instance : IsTotal String pyLe := ⟨fun a b => lexLe_total a.data b.data⟩

instance : IsTrans String pyLe := ⟨fun a b c => lexLe_trans a.data b.data c.data⟩

/-! The filesystem as the index builder sees it: immediate
subdirectories of the root, each with an optional experiment_info.json,
an optional results.json, and its own immediate subdirectories (only
inspected when the info document is absent, to look for sweep jobs).
A document value of none models a missing file. -/

/-- An immediate subdirectory of a candidate sweep parent. -/
structure JobDir where
  name : String
  info : Option Record
  results : Option Record
  deriving DecidableEq, Repr

/-- An immediate subdirectory of the root output directory. -/
structure ExpDir where
  name : String
  info : Option Record
  results : Option Record
  subdirs : List JobDir
  deriving DecidableEq, Repr

/-- ExperimentOrganizer._extract_experiment_info: load the info document,
overlay the results document when present (results override info on key
collision), then set the derived folder_name and full_path fields (these
assignments come last, so they win over any same-named document keys). -/
def extract_experiment_info (dirName fullPath : String) (info : Record)
    (results : Option Record) : Record :=
  let merged := match results with
    | some r => dictUpdate info r
    | none => info
  setField (setField merged "folder_name" (Value.str dirName))
    "full_path" (Value.str fullPath)

/-- One sweep-job subdirectory's contribution to the index: a record
tagged with sweep_parent and job_number when its info document exists,
nothing otherwise. -/
def jobRecord (base parent : String) (j : JobDir) : Option Record :=
  j.info.map (fun jinfo =>
    setField
      (setField
        (extract_experiment_info j.name (base ++ "/" ++ parent ++ "/" ++ j.name)
          jinfo j.results)
        "sweep_parent" (Value.str parent))
      "job_number" (Value.str j.name))

/-- Python sorted(job_dirs): stable sort by directory name. -/
def sortJobs (jobs : List JobDir) : List JobDir :=
  jobs.insertionSort (fun a b => pyLe a.name b.name)

instance : IsTotal JobDir (fun a b => pyLe a.name b.name) :=
  ⟨fun a b => lexLe_total a.name.data b.name.data⟩

instance : IsTrans JobDir (fun a b => pyLe a.name b.name) :=
  ⟨fun a b c => lexLe_trans a.name.data b.name.data c.name.data⟩

/-- One root subdirectory's contribution to the index (the loop body of
create_experiment_index): a directory with its own info document yields
one regular record; otherwise its job_ subdirectories are sorted by name
and each one holding an info document yields one sweep-tagged record. -/
def dirRecords (base : String) (d : ExpDir) : List Record :=
  match d.info with
  | some info =>
      [extract_experiment_info d.name (base ++ "/" ++ d.name) info d.results]
  | none =>
      (sortJobs (d.subdirs.filter (fun j => strStarts "job_" j.name))).filterMap
        (jobRecord base d.name)

/-- ExperimentOrganizer.create_experiment_index: records of all root
subdirectories in traversal order (only jobs within one sweep are
sorted).  The pandas DataFrame built from this list and written to
experiment_index.csv carries exactly these rows in this order. -/
def create_experiment_index (base : String) (root : List ExpDir) : List Record :=
  root.flatMap (dirRecords base)

/-- Column set of the DataFrame: union of the keys of all records. -/
def columns (df : List Record) : List String :=
  df.flatMap (fun r => r.map (fun p => p.1))

/-! Retention cleanup (cleanup_old_experiments).  The cleanup loop looks
only at each immediate subdirectory of the root: its mtime and the
results.json directly inside it.  Nested contents (job subdirectories of
a sweep parent, with their own results.json files) are carried in the
model but never read by the cleanup code; shutil.rmtree removes the
whole directory including them. -/

/-- A nested subdirectory of a root subdirectory, as relevant to
cleanup: only its own results document (which cleanup never opens). -/
structure SubDir where
  name : String
  results : Option Record
  deriving DecidableEq, Repr

/-- An immediate subdirectory of the root as the cleanup loop sees it. -/
structure CleanDir where
  name : String
  mtime : ℚ
  results : Option Record
  subdirs : List SubDir
  deriving DecidableEq, Repr

/-- The hardcoded preservation threshold 0.9 (written 9/10 in lowest
terms). -/
def cleanupThreshold : ℚ := ⟨9, 10, by decide, by decide⟩

/-- The test results.get('best_accuracy', 0) > 0.9 from the cleanup
loop.  A non-numeric best_accuracy would raise TypeError in Python; the
claims and all experiment documents use numeric values, so only the
numeric comparison is modelled. -/
def is_high_performing (r : Record) : Bool :=
  match (getField r "best_accuracy").getD (Value.num 0) with
  | Value.num q => decide (cleanupThreshold < q)
  | Value.str _ => false

/-- The per-directory decision of cleanup_old_experiments: a directory
is removed exactly when it is older than the cutoff and does not have a
top-level results document whose best_accuracy exceeds the threshold. -/
def removesDir (cutoff : ℚ) (d : CleanDir) : Bool :=
  if d.mtime < cutoff then
    match d.results with
    | some r => ! is_high_performing r
    | none => true
  else false

/-- ExperimentOrganizer.cleanup_old_experiments over the root listing:
the surviving directories and the printed removed-count. -/
def cleanup_old_experiments (cutoff : ℚ) (dirs : List CleanDir) :
    List CleanDir × Nat :=
  (dirs.filter (fun d => ! removesDir cutoff d),
   (dirs.filter (fun d => removesDir cutoff d)).length)

/-! Query layer.  Each query operation re-reads experiment_index.csv;
pandas.read_csv raises FileNotFoundError when the file does not exist.
The persisted index is modelled as an optional record list (none = no
file on disk), and each operation returns Except, with error carrying
the exception name Python would raise. -/

/-- pd.read_csv on the index file: the parsed rows, or the
FileNotFoundError pandas raises when the file is missing. -/
def read_index (csv : Option (List Record)) : Except String (List Record) :=
  match csv with
  | none => Except.error "FileNotFoundError"
  | some df => Except.ok df

/-- First-occurrence deduplication (pandas Series.unique). -/
def uniqueFirst : List Value → List Value
  | [] => []
  | v :: vs => v :: uniqueFirst (vs.filter (fun w => decide (w ≠ v)))
termination_by l => l.length
decreasing_by
  exact Nat.lt_succ_of_le (List.length_filter_le _ vs)

/-- ExperimentOrganizer.find_experiments: keep rows matching every
filter whose key is a column of the index, then project onto the display
columns.  Filtering never changes the pandas column set, so column
membership is tested against the full index. -/
def find_experiments (filters : List (String × Value))
    (csv : Option (List Record)) : Except String (List Record) :=
  match read_index csv with
  | Except.error e => Except.error e
  | Except.ok df =>
    let filtered := filters.foldl
      (fun acc kv =>
        if kv.1 ∈ columns df then
          acc.filter (fun r => getField r kv.1 == some kv.2)
        else acc)
      df
    let displayCols := ["folder_name", "model", "dataset", "lr", "best_accuracy"]
      ++ (if "sweep_parent" ∈ columns df then ["sweep_parent", "job_number"] else [])
    Except.ok (filtered.map (fun r =>
      displayCols.filterMap (fun c =>
        if c ∈ columns df then (getField r c).map (fun v => (c, v)) else none)))

/-- ExperimentOrganizer.list_sweeps: distinct non-missing sweep_parent
values with the number of rows sharing each; an index without the
sweep_parent column reports no sweep data. -/
def list_sweeps (csv : Option (List Record)) :
    Except String (List (Value × Nat)) :=
  match read_index csv with
  | Except.error e => Except.error e
  | Except.ok df =>
    if "sweep_parent" ∈ columns df then
      let sweeps := uniqueFirst (df.filterMap (fun r => getField r "sweep_parent"))
      Except.ok (sweeps.map (fun s =>
        (s, (df.filter (fun r => getField r "sweep_parent" == some s)).length)))
    else Except.ok []

/-- The best_accuracy sort key of a sweep row (none models a NaN cell). -/
def accKey (r : Record) : Option ℚ :=
  match getField r "best_accuracy" with
  | some (Value.num q) => some q
  | _ => none

/-- Descending best_accuracy with missing values last: the order
sort_values('best_accuracy', ascending=False) produces. -/
def accOrder (a b : Record) : Prop :=
  match accKey a, accKey b with
  | some x, some y => y ≤ x
  | some _, none => True
  | none, some _ => False
  | none, none => True

instance : DecidableRel accOrder := fun a b => by
  unfold accOrder
  cases accKey a <;> cases accKey b <;> infer_instance

/-- ExperimentOrganizer.analyze_sweep: rows of the given sweep, sorted
by best_accuracy when that column exists; empty when the sweep matches
nothing or the index has no sweep column. -/
def analyze_sweep (sweep : String) (csv : Option (List Record)) :
    Except String (List Record) :=
  match read_index csv with
  | Except.error e => Except.error e
  | Except.ok df =>
    if "sweep_parent" ∈ columns df then
      let sr := df.filter (fun r => getField r "sweep_parent" == some (Value.str sweep))
      if sr.isEmpty then Except.ok []
      else if "best_accuracy" ∈ columns df then
        Except.ok (sr.insertionSort accOrder)
      else Except.ok sr
    else Except.ok []

/-! Top-N by metric (find_best_experiments).  pandas
DataFrame.nlargest(n, metric) with the default keep='first' selects and
orders rows by descending metric value, resolving ties in favour of the
earlier row, and silently drops rows whose metric cell is missing
(NaN). -/

/-- The numeric value of a record's metric field, none when the field is
absent or non-numeric (a NaN cell of the metric column). -/
def metricVal (metric : String) (r : Record) : Option ℚ :=
  match getField r metric with
  | some (Value.num q) => some q
  | _ => none

/-- Rows paired with their original position and metric value; rows with
a missing metric value are dropped, as nlargest does. -/
def indexedByMetric (metric : String) (df : List Record) :
    List (Nat × ℚ × Record) :=
  df.enum.filterMap (fun p => (metricVal metric p.2).map (fun q => (p.1, q, p.2)))

/-- The nlargest output order: strictly larger metric value first, ties
by original row position (keep='first'). -/
def nlOrder (a b : Nat × ℚ × Record) : Prop :=
  b.2.1 < a.2.1 ∨ (a.2.1 = b.2.1 ∧ a.1 ≤ b.1)

instance : DecidableRel nlOrder := fun a b => by
  unfold nlOrder; infer_instance

instance : IsTotal (Nat × ℚ × Record) nlOrder := by
  refine ⟨fun a b => ?_⟩
  rcases lt_trichotomy a.2.1 b.2.1 with h | h | h
  · exact Or.inr (Or.inl h)
  · rcases Nat.le_total a.1 b.1 with h' | h'
    · exact Or.inl (Or.inr ⟨h, h'⟩)
    · exact Or.inr (Or.inr ⟨h.symm, h'⟩)
  · exact Or.inl (Or.inl h)

instance : IsTrans (Nat × ℚ × Record) nlOrder := by
  refine ⟨fun a b c hab hbc => ?_⟩
  rcases hab with hab | ⟨habe, habi⟩
  · rcases hbc with hbc | ⟨hbce, _⟩
    · exact Or.inl (lt_trans hbc hab)
    · exact Or.inl (hbce ▸ hab)
  · rcases hbc with hbc | ⟨hbce, hbci⟩
    · exact Or.inl (habe ▸ hbc)
    · exact Or.inr ⟨habe.trans hbce, le_trans habi hbci⟩

/-- The sorted selection underlying nlargest, with positions and metric
values still attached. -/
def nlargestTriples (n : Nat) (metric : String) (df : List Record) :
    List (Nat × ℚ × Record) :=
  ((indexedByMetric metric df).insertionSort nlOrder).take n

/-- df.nlargest(n, metric): the selected rows in output order. -/
def nlargest (n : Nat) (metric : String) (df : List Record) : List Record :=
  (nlargestTriples n metric df).map (fun t => t.2.2)

/-- Outcome of find_best_experiments: the printed top rows, or the
"Metric not found" report. -/
inductive FBResult where
  | table (rows : List Record)
  | notFound (metric : String)
  deriving DecidableEq, Repr

/-- find_best_experiments after the index rebuild: nlargest when the
metric is a column of the index, the not-found report otherwise. -/
def find_best_core (df : List Record) (metric : String) (top_n : Nat) : FBResult :=
  if metric ∈ columns df then FBResult.table (nlargest top_n metric df)
  else FBResult.notFound metric

/-- find_best_experiments(metric, top_n): rebuild the index from the
root, then rank. -/
def find_best_experiments (base : String) (root : List ExpDir)
    (metric : String) (top_n : Nat) : FBResult :=
  find_best_core (create_experiment_index base root) metric top_n

/-! Folder-name search (quick_cd).  pandas
Series.str.contains(pat, case=False) treats pat as a regular expression
(regex=True is the default) and matches case-insensitively.  The queries
the tracker meets are built from literal characters and the '.'
metacharacter; re.search is modelled for exactly that fragment. -/

/-- A token of the modelled regex fragment: a literal character or the
'.' metacharacter. -/
inductive RegexTok where
  | lit (c : Char)
  | dot
  deriving DecidableEq, Repr

/-- re.compile over the modelled fragment: '.' becomes the wildcard,
every other character a case-folded literal. -/
def parsePattern (p : String) : List RegexTok :=
  p.data.map (fun c => if c = '.' then RegexTok.dot else RegexTok.lit c)

/-- One-token match under re.IGNORECASE. -/
def tokMatches (t : RegexTok) (c : Char) : Bool :=
  match t with
  | RegexTok.dot => true
  | RegexTok.lit l => l.toLower = c.toLower

/-- Match of the whole pattern at the start of the text. -/
def matchHere : List RegexTok → List Char → Bool
  | [], _ => true
  | _ :: _, [] => false
  | t :: ts, c :: cs => tokMatches t c && matchHere ts cs

/-- re.search: match at some position of the text. -/
def regexSearch (ts : List RegexTok) : List Char → Bool
  | [] => matchHere ts []
  | c :: cs => matchHere ts (c :: cs) || regexSearch ts cs

/-- Series.str.contains(pat, case=False) on one cell. -/
def strContainsCI (pat s : String) : Bool :=
  regexSearch (parsePattern pat) s.data

/-- The match predicate of quick_cd on one index row (folder_name is
always a string set by the index builder). -/
def matchesName (q : String) (r : Record) : Bool :=
  match getField r "folder_name" with
  | some (Value.str s) => strContainsCI q s
  | _ => false

/-- The full_path cell of a row, as the string quick_cd prints. -/
def fullPathStr (r : Record) : String :=
  match getField r "full_path" with
  | some (Value.str s) => s
  | _ => ""

/-- The columns quick_cd prints for multiple matches. -/
def projCd (r : Record) : Record :=
  (["folder_name", "model", "dataset"] : List String).filterMap
    (fun c => (getField r c).map (fun v => (c, v)))

/-- Outcome of quick_cd: one cd command, the list of multiple matches,
or the no-match report. -/
inductive CdResult where
  | cdCmd (path : String)
  | multiple (rows : List Record)
  | noMatch (query : String)
  deriving DecidableEq, Repr

/-- The rows of the rebuilt index whose folder_name matches the query. -/
def cdMatches (base : String) (root : List ExpDir) (q : String) : List Record :=
  (create_experiment_index base root).filter (matchesName q)

/-- quick_cd(partial_name): rebuild the index, match folder names, and
report by number of matches. -/
def quick_cd (base : String) (root : List ExpDir) (q : String) : CdResult :=
  let ms := cdMatches base root q
  if ms.length = 1 then CdResult.cdCmd (fullPathStr (ms.headD []))
  else if 1 < ms.length then CdResult.multiple (ms.map projCd)
  else CdResult.noMatch q

/-! Command-line dispatch (the __main__ block).  The ExperimentOrganizer
class defines exactly the methods listed below: the symlink-shortcut
body (lines 158-180 of the source) sits inside list_sweeps after its
return statements, stranded without a def line, so no create_shortcuts
method exists.  Python attribute lookup on a missing method raises
AttributeError. -/

/-- The methods the ExperimentOrganizer class actually defines. -/
def organizerMethods : List String :=
  ["__init__", "create_experiment_index", "_extract_experiment_info",
   "find_experiments", "cleanup_old_experiments", "analyze_sweep",
   "list_sweeps"]

/-- What one dispatch branch does. -/
inductive CliAction where
  | usageExit
  | callList
  | callFindBest (metric : String) (top_n : Nat)
  | callQuickCd (arg : String)
  | methodOk (name : String)
  | attributeError (name : String)
  | unknownCommand (cmd : String)
  deriving DecidableEq, Repr

/-- organizer.<name>(): runs the method when the class defines it,
raises AttributeError otherwise. -/
def callMethod (name : String) : CliAction :=
  if name ∈ organizerMethods then CliAction.methodOk name
  else CliAction.attributeError name

/-- The __main__ dispatch over sys.argv.  find_best is invoked with no
arguments, so the defaults metric='best_accuracy', top_n=5 always apply;
cd and analyze_sweep require len(sys.argv) > 2; every unmatched case
falls to the final else, which prints the unknown-command line and falls
off the end of the script (normal exit). -/
def cliMain (argv : List String) : CliAction :=
  match argv with
  | [] => CliAction.usageExit
  | [_] => CliAction.usageExit
  | _ :: command :: rest =>
    if command = "list" then CliAction.callList
    else if command = "find_best" then CliAction.callFindBest "best_accuracy" 5
    else if command = "cd" ∧ rest ≠ [] then CliAction.callQuickCd (rest.headD "")
    else if command = "cleanup" then callMethod "cleanup_old_experiments"
    else if command = "shortcuts" then callMethod "create_shortcuts"
    else if command = "sweeps" then callMethod "list_sweeps"
    else if command = "analyze_sweep" ∧ rest ≠ [] then callMethod "analyze_sweep"
    else CliAction.unknownCommand command

/-- Process exit status of each dispatch outcome: sys.exit(1) for the
usage branch, 1 for an uncaught AttributeError, 0 when the script falls
off the end (including the unknown-command print). Assumes the invoked
operation itself completes. -/
def exitCode : CliAction → Nat
  | CliAction.usageExit => 1
  | CliAction.attributeError _ => 1
  | _ => 0

/-- Whether the branch prints the usage message (only the
too-few-arguments branch does; the unknown-command branch prints a
different line). -/
def printsUsage : CliAction → Bool
  | CliAction.usageExit => true
  | _ => false

/-! Helper lemmas about the index builder. -/

/-- filterMap over a list of all-some results is a map. -/
theorem filterMap_eq_map_filter {α β : Type} (f : α → Option β) (d : β) :
    ∀ l : List α,
      l.filterMap f = (l.filter (fun a => (f a).isSome)).map (fun a => (f a).getD d) := by
  intro l
  induction l with
  | nil => rfl
  | cons a t ih =>
    cases hfa : f a with
    | none =>
      rw [List.filterMap_cons_none hfa, List.filter_cons_of_neg (by simp [hfa]), ih]
    | some b =>
      rw [List.filterMap_cons_some hfa, List.filter_cons_of_pos (by simp [hfa]),
        List.map_cons, ih, hfa]
      rfl

/-- A record produced for a job subdirectory carries the parent's name
in sweep_parent and the job directory's name in job_number. -/
theorem jobRecord_fields (base parent : String) (j : JobDir) (r : Record)
    (h : jobRecord base parent j = some r) :
    getField r "sweep_parent" = some (Value.str parent) ∧
      getField r "job_number" = some (Value.str j.name) := by
  unfold jobRecord at h
  cases hinfo : j.info with
  | none => rw [hinfo] at h; exact absurd h (by simp)
  | some jinfo =>
    rw [hinfo] at h
    obtain rfl : _ = r := Option.some.inj h
    constructor
    · rw [getField_setField_other _ _ _ _ (by decide), getField_setField_same]
    · rw [getField_setField_same]

theorem jobRecord_isSome (base parent : String) (j : JobDir) :
    (jobRecord base parent j).isSome = j.info.isSome := by
  unfold jobRecord
  exact Option.isSome_map'

/-- C7 helper: the per-parent output, fully described when the parent
has no info document. -/
theorem dirRecords_sweep (base : String) (d : ExpDir) (hinfo : d.info = none) :
    dirRecords base d =
      ((sortJobs (d.subdirs.filter (fun j => strStarts "job_" j.name))).filter
        (fun j => j.info.isSome)).map
        (fun j => (jobRecord base d.name j).getD []) := by
  have h0 : dirRecords base d =
      (sortJobs (d.subdirs.filter (fun j => strStarts "job_" j.name))).filterMap
        (jobRecord base d.name) := by
    simp only [dirRecords, hinfo]
  rw [h0, filterMap_eq_map_filter (jobRecord base d.name) []]
  congr 1
  apply List.filter_congr
  intro j _
  rw [jobRecord_isSome]

/-! C1.  The spec's Shortcut Generator (clear the shortcuts directory,
link the top 5 records) is what the stranded lines 158-180 of the source
describe, but no create_shortcuts method exists: those lines sit inside
list_sweeps after its return statements.  The usage examples at the end
of the module nevertheless advertise the shortcuts command, so the
dispatch crashes with AttributeError instead of generating shortcuts. -/

/-- Claim C1: invoking the CLI shortcuts command does not reach any
shortcut-generation code; attribute lookup of create_shortcuts on the
organizer fails, so the run dies with AttributeError (exit status 1),
contradicting the module's own usage documentation. -/
theorem shortcuts_command_crashes :
    cliMain ["experiment_tracker.py", "shortcuts"]
        = CliAction.attributeError "create_shortcuts"
      ∧ ("create_shortcuts" ∈ organizerMethods) = False
      ∧ exitCode (cliMain ["experiment_tracker.py", "shortcuts"]) = 1 := by
  refine ⟨by decide, by simp [organizerMethods], by decide⟩

/-! C2.  The cleanup keep-test is results.get('best_accuracy', 0) > 0.9:
strict.  A directory whose results document reports exactly 0.9 is
older-than-cutoff removable, refuting the claim's "greater than or equal
to 0.9 is kept". -/

/-- Claim C2 counterexample: a directory older than the cutoff whose
results.json reports best_accuracy exactly 0.9 is removed, not kept. -/
theorem cleanup_at_threshold_removed :
    removesDir 0 ⟨"expA", -1, some [("best_accuracy", Value.num cleanupThreshold)], []⟩
      = true := by decide

/-- Claim C2 (amended): for a directory older than the cutoff holding a
results document with a numeric best_accuracy, cleanup keeps it exactly
when the value is strictly greater than 0.9 and removes it when the
value is at most 0.9 (in particular at exactly 0.9). -/
theorem cleanup_strict_threshold (cutoff : ℚ) (d : CleanDir) (r : Record) (q : ℚ)
    (hold : d.mtime < cutoff) (hres : d.results = some r)
    (hacc : getField r "best_accuracy" = some (Value.num q)) :
    (cleanupThreshold < q → removesDir cutoff d = false) ∧
      (q ≤ cleanupThreshold → removesDir cutoff d = true) := by
  have h0 : removesDir cutoff d = ! is_high_performing r := by
    simp [removesDir, hres, hold]
  have h1 : is_high_performing r = decide (cleanupThreshold < q) := by
    simp [is_high_performing, hacc]
  rw [h0, h1]
  constructor
  · intro hq
    simp [hq]
  · intro hq
    simp [not_lt_of_ge hq]

/-- Claim C2 amended-theorem witness: at cutoff 0, a directory of mtime
-1 with best_accuracy 0.95 is kept and one with best_accuracy 0.9 is
removed. -/
theorem cleanup_strict_threshold_witness :
    removesDir 0 ⟨"hi", -1,
        some [("best_accuracy", Value.num ⟨19, 20, by decide, by decide⟩)], []⟩ = false
      ∧ removesDir 0 ⟨"eq", -1,
        some [("best_accuracy", Value.num cleanupThreshold)], []⟩ = true := by
  constructor
  · exact (cleanup_strict_threshold 0
      ⟨"hi", -1, some [("best_accuracy", Value.num ⟨19, 20, by decide, by decide⟩)], []⟩
      [("best_accuracy", Value.num ⟨19, 20, by decide, by decide⟩)]
      ⟨19, 20, by decide, by decide⟩ (by decide) rfl rfl).1 (by decide)
  · exact (cleanup_strict_threshold 0
      ⟨"eq", -1, some [("best_accuracy", Value.num cleanupThreshold)], []⟩
      [("best_accuracy", Value.num cleanupThreshold)]
      cleanupThreshold (by decide) rfl rfl).2 (by decide)

/-- Claim C3: the preservation check reads only the results.json directly
inside each immediate subdirectory of the root.  Any such directory older
than the cutoff with no top-level results document is removed whole -
its nested subdirectories (sweep job directories, shortcut links) and
their results documents, however high-performing, are never consulted:
the conclusion holds for every subdirs list. -/
theorem cleanup_ignores_nested_results (cutoff : ℚ) (name : String) (mtime : ℚ)
    (subdirs : List SubDir) (hold : mtime < cutoff) :
    removesDir cutoff ⟨name, mtime, none, subdirs⟩ = true
      ∧ cleanup_old_experiments cutoff [⟨name, mtime, none, subdirs⟩] = ([], 1) := by
  have h1 : removesDir cutoff ⟨name, mtime, none, subdirs⟩ = true := by
    unfold removesDir
    rw [if_pos hold]
  refine ⟨h1, ?_⟩
  unfold cleanup_old_experiments
  rw [List.filter_cons_of_neg (by simp [h1]), List.filter_cons_of_pos (by simp [h1])]
  rfl

/-- Claim C3 witness: an aged sweep parent whose only job subdirectory
reports best_accuracy 0.95 (and whose results.json is inside the job
directory, not at the parent's top level) is recursively removed. -/
theorem cleanup_ignores_nested_results_witness :
    removesDir 0 ⟨"sweepB", -1, none,
        [⟨"job_0", some [("best_accuracy", Value.num ⟨19, 20, by decide, by decide⟩)]⟩]⟩
      = true := by
  exact (cleanup_ignores_nested_results 0 "sweepB" (-1)
    [⟨"job_0", some [("best_accuracy", Value.num ⟨19, 20, by decide, by decide⟩)]⟩]
    (by decide)).1

/-! C4.  The spec says a missing index file is treated as an empty
index; but every query operation opens it with pd.read_csv, which raises
FileNotFoundError for a fresh root. -/

/-- Claim C4 counterexample: on a fresh root (no persisted index file),
each of the three reloading query operations raises FileNotFoundError
rather than completing. -/
theorem queries_missing_index_counterexample :
    find_experiments [] none = Except.error "FileNotFoundError"
      ∧ list_sweeps none = Except.error "FileNotFoundError"
      ∧ analyze_sweep "sweepB" none = Except.error "FileNotFoundError" :=
  ⟨rfl, rfl, rfl⟩

/-- Claim C4 (amended): for a fresh root where the persisted index file
does not exist, every query operation that reloads the index raises
pandas' FileNotFoundError; none of them treats the missing file as an
empty index. -/
theorem queries_missing_index_amended (filters : List (String × Value))
    (sweep : String) :
    find_experiments filters none = Except.error "FileNotFoundError"
      ∧ list_sweeps none = Except.error "FileNotFoundError"
      ∧ analyze_sweep sweep none = Except.error "FileNotFoundError" :=
  ⟨rfl, rfl, rfl⟩

/-! C5.  Only the no-command-at-all branch prints the usage line and
exits 1.  The final else branch - reached by an unknown command, and
also by cd or analyze_sweep without their argument - prints "Unknown
command: ..." and falls off the end of the script: exit status 0 and no
usage message. -/

/-- Claim C5 counterexample: an unknown command, and cd without its
argument, exit with status 0 and print no usage message. -/
theorem cli_unknown_exit_counterexample :
    cliMain ["experiment_tracker.py", "bogus"] = CliAction.unknownCommand "bogus"
      ∧ exitCode (cliMain ["experiment_tracker.py", "bogus"]) = 0
      ∧ printsUsage (cliMain ["experiment_tracker.py", "bogus"]) = false
      ∧ cliMain ["experiment_tracker.py", "cd"] = CliAction.unknownCommand "cd"
      ∧ exitCode (cliMain ["experiment_tracker.py", "cd"]) = 0 := by
  refine ⟨by decide, by decide, by decide, by decide, by decide⟩

/-- Claim C5 (amended): invoking the CLI with no command prints the
usage message and exits 1; an unknown command, or cd / analyze_sweep
without their required argument, prints the "Unknown command" line
instead and exits with status 0, without printing usage. -/
theorem cli_dispatch_amended :
    (∀ argv : List String, argv.length < 2 →
        cliMain argv = CliAction.usageExit
          ∧ exitCode CliAction.usageExit = 1
          ∧ printsUsage CliAction.usageExit = true)
      ∧ (∀ prog cmd : String, ∀ rest : List String,
          cmd ∉ (["list", "find_best", "cd", "cleanup", "shortcuts", "sweeps",
            "analyze_sweep"] : List String) →
          cliMain (prog :: cmd :: rest) = CliAction.unknownCommand cmd
            ∧ exitCode (CliAction.unknownCommand cmd) = 0
            ∧ printsUsage (CliAction.unknownCommand cmd) = false)
      ∧ (∀ prog : String,
          cliMain [prog, "cd"] = CliAction.unknownCommand "cd"
            ∧ cliMain [prog, "analyze_sweep"] = CliAction.unknownCommand "analyze_sweep") := by
  refine ⟨?_, ?_, ?_⟩
  · intro argv h
    match argv with
    | [] => exact ⟨rfl, rfl, rfl⟩
    | [_] => exact ⟨rfl, rfl, rfl⟩
    | _ :: _ :: _ => exact absurd h (by simp only [List.length_cons]; omega)
  · intro prog cmd rest h
    simp only [List.mem_cons, List.not_mem_nil, or_false, not_or] at h
    obtain ⟨h1, h2, h3, h4, h5, h6, h7⟩ := h
    refine ⟨?_, rfl, rfl⟩
    simp only [cliMain]
    rw [if_neg h1, if_neg h2, if_neg (fun hc => h3 hc.1), if_neg h4, if_neg h5,
      if_neg h6, if_neg (fun hc => h7 hc.1)]
  · intro prog
    exact ⟨by simp [cliMain], by simp [cliMain]⟩

/-- Claim C5 amended-theorem witness: concrete invocations of each
dispatch branch the amended claim describes. -/
theorem cli_dispatch_amended_witness :
    cliMain ["experiment_tracker.py"] = CliAction.usageExit
      ∧ cliMain ["experiment_tracker.py", "frobnicate"] = CliAction.unknownCommand "frobnicate"
      ∧ cliMain ["experiment_tracker.py", "cd"] = CliAction.unknownCommand "cd" := by
  refine ⟨(cli_dispatch_amended.1 ["experiment_tracker.py"] (by decide)).1,
    (cli_dispatch_amended.2.1 "experiment_tracker.py" "frobnicate" [] (by decide)).1,
    (cli_dispatch_amended.2.2 "experiment_tracker.py").1⟩

/-! C6.  The dispatch calls find_best_experiments() with no arguments:
any metric or n supplied on the command line is ignored and the defaults
metric='best_accuracy', top_n=5 always apply. -/

/-- Claim C6 counterexample: invoking find_best with metric "loss" and
n 3 still dispatches with the defaults best_accuracy and 5. -/
theorem find_best_ignores_args_counterexample :
    cliMain ["experiment_tracker.py", "find_best", "loss", "3"]
        = CliAction.callFindBest "best_accuracy" 5
      ∧ cliMain ["experiment_tracker.py", "find_best", "loss", "3"]
        ≠ CliAction.callFindBest "loss" 3 := by
  refine ⟨by decide, by decide⟩

/-- Claim C6 (amended): the CLI find_best command ignores any supplied
metric and n arguments and always calls find_best_experiments with the
defaults metric='best_accuracy', top_n=5; that call rebuilds the index
and, whenever best_accuracy is a column of the rebuilt index, prints its
top 5 records by best_accuracy. -/
theorem find_best_cli_amended :
    (∀ prog : String, ∀ rest : List String,
        cliMain (prog :: "find_best" :: rest) = CliAction.callFindBest "best_accuracy" 5)
      ∧ (∀ base : String, ∀ root : List ExpDir,
          "best_accuracy" ∈ columns (create_experiment_index base root) →
          find_best_experiments base root "best_accuracy" 5
            = FBResult.table (nlargest 5 "best_accuracy" (create_experiment_index base root))) := by
  constructor
  · intro prog rest
    simp [cliMain]
  · intro base root h
    unfold find_best_experiments find_best_core
    rw [if_pos h]

/-- Claim C6 amended-theorem witness: dispatch with extra arguments, and
the ranking of a concrete rebuilt index. -/
theorem find_best_cli_amended_witness :
    cliMain ["experiment_tracker.py", "find_best", "loss", "3"]
        = CliAction.callFindBest "best_accuracy" 5
      ∧ find_best_experiments "/x"
          [⟨"abc", some [("best_accuracy", Value.num 1)], none, []⟩]
          "best_accuracy" 5
        = FBResult.table (nlargest 5 "best_accuracy"
            (create_experiment_index "/x"
              [⟨"abc", some [("best_accuracy", Value.num 1)], none, []⟩])) := by
  refine ⟨find_best_cli_amended.1 "experiment_tracker.py" ["loss", "3"],
    find_best_cli_amended.2 "/x"
      [⟨"abc", some [("best_accuracy", Value.num 1)], none, []⟩] (by decide)⟩

/-! C7.  Sweep-parent contributions to the index. -/

/-- Claim C7: a root subdirectory without its own info document
contributes one record per job_ subdirectory holding an info document
(and no others), each tagged with sweep_parent = the parent directory's
name and job_number = the job directory's name, and the records appear
in lexicographic order of job directory name. -/
theorem sweep_parent_records (base : String) (d : ExpDir) (hinfo : d.info = none) :
    (dirRecords base d).length
        = ((d.subdirs.filter (fun j => strStarts "job_" j.name)).filter
            (fun j => j.info.isSome)).length
      ∧ (∀ r ∈ dirRecords base d,
          getField r "sweep_parent" = some (Value.str d.name))
      ∧ (dirRecords base d).map (fun r => getField r "job_number")
          = ((sortJobs (d.subdirs.filter (fun j => strStarts "job_" j.name))).filter
              (fun j => j.info.isSome)).map (fun j => some (Value.str j.name))
      ∧ List.Sorted pyLe
          (((sortJobs (d.subdirs.filter (fun j => strStarts "job_" j.name))).filter
            (fun j => j.info.isSome)).map (fun j => j.name)) := by
  have h0 := dirRecords_sweep base d hinfo
  refine ⟨?_, ?_, ?_, ?_⟩
  · rw [h0, List.length_map]
    simp only [sortJobs]
    exact ((List.perm_insertionSort _ _).filter _).length_eq
  · intro r hr
    rw [h0] at hr
    obtain ⟨j, hj, rfl⟩ := List.mem_map.mp hr
    have hsome : j.info.isSome := (List.mem_filter.mp hj).2
    have hjs : (jobRecord base d.name j).isSome = true := by
      rw [jobRecord_isSome]; exact hsome
    obtain ⟨rec, hrec⟩ := Option.isSome_iff_exists.mp hjs
    rw [hrec]
    exact (jobRecord_fields base d.name j rec hrec).1
  · rw [h0, List.map_map]
    apply List.map_congr_left
    intro j hj
    have hsome : j.info.isSome := (List.mem_filter.mp hj).2
    have hjs : (jobRecord base d.name j).isSome = true := by
      rw [jobRecord_isSome]; exact hsome
    obtain ⟨rec, hrec⟩ := Option.isSome_iff_exists.mp hjs
    simp only [Function.comp_apply]
    rw [hrec]
    exact (jobRecord_fields base d.name j rec hrec).2
  · show List.Pairwise pyLe _
    rw [List.pairwise_map]
    apply List.Pairwise.filter
    simp only [sortJobs]
    exact List.sorted_insertionSort _ _

/-- Claim C7 witness: a sweep parent with two valid job subdirectories
listed out of order and one non-job subdirectory contributes exactly two
records. -/
theorem sweep_parent_records_witness :
    (dirRecords "./outputs"
        ⟨"sweepB", none, none,
          [⟨"job_1", some [("lr", Value.num 1)], none⟩,
           ⟨"job_0", some [("lr", Value.num 2)], none⟩,
           ⟨"notes", some [("x", Value.num 0)], none⟩]⟩).length
      = ((((⟨"sweepB", none, none,
          [⟨"job_1", some [("lr", Value.num 1)], none⟩,
           ⟨"job_0", some [("lr", Value.num 2)], none⟩,
           ⟨"notes", some [("x", Value.num 0)], none⟩]⟩ : ExpDir)).subdirs.filter
            (fun j : JobDir => strStarts "job_" j.name)).filter
            (fun j : JobDir => j.info.isSome)).length := by
  exact (sweep_parent_records "./outputs"
    ⟨"sweepB", none, none,
      [⟨"job_1", some [("lr", Value.num 1)], none⟩,
       ⟨"job_0", some [("lr", Value.num 2)], none⟩,
       ⟨"notes", some [("x", Value.num 0)], none⟩]⟩ rfl).1

/-! C8.  Top-N by metric.  nlargest silently drops rows whose metric
cell is missing, so with N above the record count it returns only the
rows that carry a metric value, not all records - a counterexample to
the claim's "returns all records" clause.  The descending order,
keep-first tie-breaking and the graceful not-found report do hold. -/

/-- Claim C8 counterexample: an index of two rows, one lacking the
best_accuracy field; the metric is a column of the index and N = 5
exceeds the record count 2, yet nlargest returns a single row rather
than all records. -/
theorem nlargest_drops_nan_counterexample :
    ("best_accuracy" ∈ columns
        [[("best_accuracy", Value.num 1)], [("lr", Value.num 1)]])
      ∧ ([[("best_accuracy", Value.num 1)], [("lr", Value.num 1)]] : List Record).length ≤ 5
      ∧ (nlargest 5 "best_accuracy"
          [[("best_accuracy", Value.num 1)], [("lr", Value.num 1)]]).length = 1 := by
  refine ⟨by decide, by decide, by decide⟩

/-- Rows selected by nlargest, projected back to the requested rows:
they are exactly the rows of the index that carry a metric value. -/
theorem enumFrom_metric_rows (metric : String) :
    ∀ (l : List Record) (k : Nat),
      ((l.enumFrom k).filterMap
          (fun p => (metricVal metric p.2).map (fun q => (p.1, q, p.2)))).map
        (fun t => t.2.2)
        = l.filter (fun r => (metricVal metric r).isSome) := by
  intro l
  induction l with
  | nil => intro _; rfl
  | cons r t ih =>
    intro k
    rw [List.enumFrom_cons]
    cases hm : metricVal metric r with
    | none =>
      rw [List.filterMap_cons_none (by simp [hm]),
        List.filter_cons_of_neg (by simp [hm])]
      exact ih (k + 1)
    | some q =>
      have hsome : (fun p : Nat × Record =>
          (metricVal metric p.2).map (fun q => (p.1, q, p.2))) (k, r)
          = some (k, q, r) := by
        simp [hm]
      rw [@List.filterMap_cons_some (Nat × Record) (Nat × ℚ × Record)
          (fun p => (metricVal metric p.2).map (fun q => (p.1, q, p.2)))
          (k, r) (List.enumFrom (k + 1) t) (k, q, r) hsome,
        List.map_cons, List.filter_cons_of_pos (by simp [hm]), ih (k + 1)]

/-- Claim C8 (amended): the top-N operation reports "not found" (rather
than raising) when the metric is not a column; otherwise it returns
nlargest, whose selection is sorted by strictly descending metric value
with ties in original index order, each selected triple really is a row
of the index at its recorded position with its recorded metric value;
and when N is at least the record count the result is a permutation of
the rows that carry a metric value - all records, when every record has
one (records with a missing metric cell are dropped). -/
theorem find_best_props (df : List Record) (metric : String) (n : Nat) :
    (metric ∉ columns df → find_best_core df metric n = FBResult.notFound metric)
      ∧ (metric ∈ columns df →
          find_best_core df metric n = FBResult.table (nlargest n metric df))
      ∧ List.Sorted nlOrder (nlargestTriples n metric df)
      ∧ (∀ t ∈ nlargestTriples n metric df,
          df[t.1]? = some t.2.2 ∧ metricVal metric t.2.2 = some t.2.1)
      ∧ (df.length ≤ n →
          (nlargest n metric df).Perm
            (df.filter (fun r => (metricVal metric r).isSome)))
      ∧ ((∀ r ∈ df, (metricVal metric r).isSome) → df.length ≤ n →
          (nlargest n metric df).Perm df) := by
  have hrows : (indexedByMetric metric df).map (fun t => t.2.2)
      = df.filter (fun r => (metricVal metric r).isSome) :=
    enumFrom_metric_rows metric df 0
  have hpermFilter : df.length ≤ n →
      (nlargest n metric df).Perm
        (df.filter (fun r => (metricVal metric r).isSome)) := by
    intro hlen
    have hfmle : (indexedByMetric metric df).length ≤ df.length := by
      unfold indexedByMetric
      calc (df.enum.filterMap
            (fun p => (metricVal metric p.2).map (fun q => (p.1, q, p.2)))).length
          ≤ df.enum.length := List.length_filterMap_le _ _
        _ = df.length := List.enum_length
    have hsl : ((indexedByMetric metric df).insertionSort nlOrder).length ≤ n := by
      rw [List.length_insertionSort]
      exact le_trans hfmle hlen
    unfold nlargest nlargestTriples
    rw [List.take_of_length_le hsl]
    have hb := (List.perm_insertionSort nlOrder (indexedByMetric metric df)).map
      (fun t => t.2.2)
    rw [hrows] at hb
    exact hb
  refine ⟨?_, ?_, ?_, ?_, hpermFilter, ?_⟩
  · intro h
    unfold find_best_core
    rw [if_neg h]
  · intro h
    unfold find_best_core
    rw [if_pos h]
  · exact List.Pairwise.sublist (List.take_sublist _ _)
      (List.sorted_insertionSort _ _)
  · intro t ht
    have h1 : t ∈ (indexedByMetric metric df).insertionSort nlOrder :=
      List.take_subset _ _ ht
    have h2 : t ∈ indexedByMetric metric df := (List.mem_insertionSort _).mp h1
    obtain ⟨p, hp, hpt⟩ := List.mem_filterMap.mp h2
    obtain ⟨i, r⟩ := p
    cases hm : metricVal metric r with
    | none => rw [show metricVal metric (i, r).2 = none from hm] at hpt; simp at hpt
    | some q =>
      rw [show metricVal metric (i, r).2 = some q from hm] at hpt
      obtain rfl : (i, q, r) = t := Option.some.inj hpt
      exact ⟨List.mem_enum_iff_getElem?.mp hp, hm⟩
  · intro hall hlen
    have hfilter : df.filter (fun r => (metricVal metric r).isSome) = df :=
      List.filter_eq_self.mpr (fun r hr => hall r hr)
    have h := hpermFilter hlen
    rw [hfilter] at h
    exact h

/-- Claim C8 amended-theorem witness: on a concrete two-row index, the
not-found report for an absent metric, the table equation, and the
permutation property with every row carrying the metric. -/
theorem find_best_props_witness :
    find_best_core [[("best_accuracy", Value.num 1)], [("best_accuracy", Value.num 0)]]
        "loss" 5 = FBResult.notFound "loss"
      ∧ find_best_core [[("best_accuracy", Value.num 1)], [("best_accuracy", Value.num 0)]]
        "best_accuracy" 5
        = FBResult.table (nlargest 5 "best_accuracy"
            [[("best_accuracy", Value.num 1)], [("best_accuracy", Value.num 0)]])
      ∧ (nlargest 5 "best_accuracy"
          [[("best_accuracy", Value.num 1)], [("best_accuracy", Value.num 0)]]).Perm
          [[("best_accuracy", Value.num 1)], [("best_accuracy", Value.num 0)]] := by
  refine ⟨(find_best_props
      [[("best_accuracy", Value.num 1)], [("best_accuracy", Value.num 0)]] "loss" 5).1
      (by decide),
    (find_best_props
      [[("best_accuracy", Value.num 1)], [("best_accuracy", Value.num 0)]]
      "best_accuracy" 5).2.1 (by decide),
    (find_best_props
      [[("best_accuracy", Value.num 1)], [("best_accuracy", Value.num 0)]]
      "best_accuracy" 5).2.2.2.2.2 (by decide) (by decide)⟩

/-! C9 and C10 helpers: the shape of every record the index builder
produces. -/

/-- The derived folder_name and full_path assignments always win, also
when the merged documents contain keys of those names. -/
theorem extract_folder_full (dirName fullPath : String) (info : Record)
    (res : Option Record) :
    getField (extract_experiment_info dirName fullPath info res) "folder_name"
        = some (Value.str dirName)
      ∧ getField (extract_experiment_info dirName fullPath info res) "full_path"
        = some (Value.str fullPath) := by
  unfold extract_experiment_info
  constructor
  · rw [getField_setField_other _ _ _ _ (by decide), getField_setField_same]
  · rw [getField_setField_same]

/-- Every record of the rebuilt index has string-valued folder_name and
full_path fields. -/
theorem index_record_shape (base : String) (root : List ExpDir) (r : Record)
    (hr : r ∈ create_experiment_index base root) :
    ∃ nm pth : String,
      getField r "folder_name" = some (Value.str nm)
        ∧ getField r "full_path" = some (Value.str pth) := by
  obtain ⟨d, _, hrd⟩ := List.mem_flatMap.mp hr
  cases hinfo : d.info with
  | some i =>
    simp only [dirRecords, hinfo] at hrd
    obtain rfl := List.mem_singleton.mp hrd
    exact ⟨d.name, base ++ "/" ++ d.name,
      (extract_folder_full d.name (base ++ "/" ++ d.name) i d.results).1,
      (extract_folder_full d.name (base ++ "/" ++ d.name) i d.results).2⟩
  | none =>
    simp only [dirRecords, hinfo] at hrd
    obtain ⟨j, _, hjr⟩ := List.mem_filterMap.mp hrd
    unfold jobRecord at hjr
    cases hji : j.info with
    | none => rw [hji] at hjr; exact absurd hjr (by simp)
    | some jinfo =>
      rw [hji] at hjr
      obtain rfl : _ = r := Option.some.inj hjr
      have hef := extract_folder_full j.name
        (base ++ "/" ++ d.name ++ "/" ++ j.name) jinfo j.results
      refine ⟨j.name, base ++ "/" ++ d.name ++ "/" ++ j.name, ?_, ?_⟩
      · rw [getField_setField_other _ _ _ _ (by decide),
          getField_setField_other _ _ _ _ (by decide), hef.1]
      · rw [getField_setField_other _ _ _ _ (by decide),
          getField_setField_other _ _ _ _ (by decide), hef.2]

/-! C9.  Folder-name search.  str.contains defaults to regex matching:
a query containing a regex metacharacter is not matched as a literal
substring.  The counterexample query "a.c" matches the folder "abc"
although "a.c" is not a substring of "abc". -/

/-- Case-insensitive substring containment.  Modelled from the spec:
the claim's words say the search "performs a case-insensitive substring
match", which this definition expresses, for comparison with the
regex-based matching the source actually performs. -/
def isSubstr : List Char → List Char → Bool
  | p, [] => p.isEmpty
  | p, c :: cs => leadsWith p (c :: cs) || isSubstr p cs

/-- Case-insensitive substring containment on strings (spec-side
definition for the refinement comparison). -/
def specSubstringCI (q s : String) : Bool :=
  isSubstr (q.data.map Char.toLower) (s.data.map Char.toLower)

/-- Claim C9 counterexample: on an index with the single folder "abc",
the query "a.c" - not a substring of "abc" - nevertheless matches
(because str.contains interprets it as a regex) and produces a cd
command. -/
theorem quick_cd_regex_counterexample :
    quick_cd "/x" [⟨"abc", some [("model", Value.str "r18")], none, []⟩] "a.c"
        = CdResult.cdCmd "/x/abc"
      ∧ specSubstringCI "a.c" "abc" = false := by
  refine ⟨by decide, by decide⟩

/-- Claim C9 (amended): the folder-name search matches each record's
folder_name against the query interpreted as a case-insensitive regular
expression (for metacharacter-free queries this is substring matching);
exactly one matching record yields a single cd command built from that
record's full_path, several yield the printed match list, none yields
the no-match report. -/
theorem quick_cd_amended (base : String) (root : List ExpDir) (q : String) :
    (∀ r ∈ create_experiment_index base root,
        ∃ s, getField r "folder_name" = some (Value.str s)
          ∧ matchesName q r = strContainsCI q s)
      ∧ ((cdMatches base root q).length = 1 →
          quick_cd base root q
            = CdResult.cdCmd (fullPathStr ((cdMatches base root q).headD [])))
      ∧ (1 < (cdMatches base root q).length →
          quick_cd base root q
            = CdResult.multiple ((cdMatches base root q).map projCd))
      ∧ ((cdMatches base root q).length = 0 →
          quick_cd base root q = CdResult.noMatch q) := by
  refine ⟨?_, ?_, ?_, ?_⟩
  · intro r hr
    obtain ⟨nm, _, h1, _⟩ := index_record_shape base root r hr
    refine ⟨nm, h1, ?_⟩
    unfold matchesName
    rw [h1]
  · intro h
    simp only [quick_cd]
    rw [if_pos h]
  · intro h
    simp only [quick_cd]
    rw [if_neg (by omega), if_pos h]
  · intro h
    simp only [quick_cd]
    rw [if_neg (by omega), if_neg (by omega)]

/-- Claim C9 amended-theorem witness: a single-match query on a concrete
index produces the cd command. -/
theorem quick_cd_amended_witness :
    quick_cd "/x" [⟨"abc", some [("model", Value.str "r18")], none, []⟩] "ab"
      = CdResult.cdCmd (fullPathStr
          ((cdMatches "/x" [⟨"abc", some [("model", Value.str "r18")], none, []⟩]
            "ab").headD [])) := by
  exact (quick_cd_amended "/x"
    [⟨"abc", some [("model", Value.str "r18")], none, []⟩] "ab").2.1 (by decide)

/-! C10.  Derived fields.  folder_name and full_path always carry the
derived values, but the "sweep fields only on sweep records" half fails:
a regular experiment whose info document itself contains a sweep_parent
key yields a regular record carrying that field. -/

/-- Claim C10 counterexample: a root with a single regular experiment
directory (info document present directly, so not a sweep parent) whose
info document contains a sweep_parent key; the resulting record carries
sweep_parent although it was not produced from a job subdirectory. -/
theorem sweep_field_leak_counterexample :
    (create_experiment_index "./outputs"
        [⟨"expA", some [("sweep_parent", Value.str "ghost")], none, []⟩]).length = 1
      ∧ getField ((create_experiment_index "./outputs"
          [⟨"expA", some [("sweep_parent", Value.str "ghost")], none, []⟩]).headD [])
          "sweep_parent"
        = some (Value.str "ghost") := by
  refine ⟨by decide, by decide⟩

/-- Claim C10 (amended): every record carries the derived folder_name
and full_path values, which prevail over same-named document keys; every
record produced from a job subdirectory carries sweep_parent = parent
name and job_number = job name; and a record produced from a regular
experiment directory carries any other field - in particular
sweep_parent or job_number - only if its info or results document
contains that key. -/
theorem record_fields_amended (dirName fullPath : String) (info : Record)
    (res : Option Record) :
    getField (extract_experiment_info dirName fullPath info res) "folder_name"
        = some (Value.str dirName)
      ∧ getField (extract_experiment_info dirName fullPath info res) "full_path"
        = some (Value.str fullPath)
      ∧ (∀ k : String, k ≠ "folder_name" → k ≠ "full_path" →
          getField (extract_experiment_info dirName fullPath info res) k ≠ none →
          getField info k ≠ none ∨ ∃ rr, res = some rr ∧ getField rr k ≠ none)
      ∧ (∀ base parent : String, ∀ j : JobDir, ∀ r : Record,
          jobRecord base parent j = some r →
          getField r "sweep_parent" = some (Value.str parent)
            ∧ getField r "job_number" = some (Value.str j.name)) := by
  refine ⟨(extract_folder_full dirName fullPath info res).1,
    (extract_folder_full dirName fullPath info res).2, ?_, jobRecord_fields⟩
  intro k hkf hkp hne
  unfold extract_experiment_info at hne
  rw [getField_setField_other _ _ _ _ hkp, getField_setField_other _ _ _ _ hkf] at hne
  cases hres : res with
  | none =>
    rw [hres] at hne
    exact Or.inl hne
  | some rr =>
    rw [hres] at hne
    rcases getField_dictUpdate_ne_none rr info k hne with h | h
    · exact Or.inl h
    · exact Or.inr ⟨rr, rfl, h⟩

/-- Claim C10 amended-theorem witness: the key-provenance clause at a
concrete regular record and the tagging clause at a concrete job
record. -/
theorem record_fields_amended_witness :
    (getField [("model", Value.str "r18")] "model" ≠ none
        ∨ ∃ rr, (none : Option Record) = some rr ∧ getField rr "model" ≠ none)
      ∧ getField [("lr", Value.num 1), ("folder_name", Value.str "job_0"),
          ("full_path", Value.str "/o/sweepB/job_0"),
          ("sweep_parent", Value.str "sweepB"), ("job_number", Value.str "job_0")]
          "sweep_parent" = some (Value.str "sweepB") := by
  refine ⟨(record_fields_amended "expA" "/o/expA" [("model", Value.str "r18")]
      none).2.2.1 "model" (by decide) (by decide) (by decide),
    ((record_fields_amended "expA" "/o/expA" [("model", Value.str "r18")]
      none).2.2.2 "/o" "sweepB" ⟨"job_0", some [("lr", Value.num 1)], none⟩
      [("lr", Value.num 1), ("folder_name", Value.str "job_0"),
       ("full_path", Value.str "/o/sweepB/job_0"),
       ("sweep_parent", Value.str "sweepB"), ("job_number", Value.str "job_0")]
      (by decide)).1⟩

end ExperimentTracker
